import Mathlib

/-!
Shallow embedding of the meltano plugin model (src/meltano/core/plugin/base.py)
and the select service (src/meltano/core/select_service.py).

Python dictionaries are embedded as association lists of string keys and
YAML-style values, preserving insertion order; mapping update and merge follow
the Python dict semantics (later assignment overrides, new keys appended).
-/

/-- A YAML-style value as carried around in plugin manifests and extras. -/
inductive Value where
  | null : Value
  | str (s : String) : Value
  | bool (b : Bool) : Value
  | num (n : Int) : Value
  | list (vs : List Value) : Value
  | obj (kvs : List (String × Value)) : Value
deriving Repr

mutual

/-- Structural equality of values, as the Python == on the embedded data. -/
def Value.beq : Value → Value → Bool
  | .null, .null => true
  | .str a, .str b => a == b
  | .bool a, .bool b => a == b
  | .num a, .num b => a == b
  | .list as, .list bs => Value.beqList as bs
  | .obj as, .obj bs => Value.beqObj as bs
  | _, _ => false

/-- Elementwise equality of value lists. -/
def Value.beqList : List Value → List Value → Bool
  | [], [] => true
  | a :: as, b :: bs => Value.beq a b && Value.beqList as bs
  | _, _ => false

/-- Elementwise equality of keyed value lists. -/
def Value.beqObj : List (String × Value) → List (String × Value) → Bool
  | [], [] => true
  | (k, a) :: as, (l, b) :: bs => k == l && Value.beq a b && Value.beqObj as bs
  | _, _ => false

end

/-- First-match lookup in an association list, as Python dict lookup on a
dict with unique keys. -/
def dictLookup (d : List (String × Value)) (k : String) : Option Value :=
  (d.find? (fun kv => kv.1 = k)).map (fun kv => kv.2)

/-- Python dict assignment d[k] = v: override in place at the first
occurrence of the key when it exists, append otherwise (keys are unique in
a Python dict, so the first occurrence is the occurrence). -/
def dictInsert (d : List (String × Value)) (k : String) (v : Value) :
    List (String × Value) :=
  match d with
  | [] => [(k, v)]
  | (k₀, v₀) :: rest =>
    if k₀ = k then (k, v) :: rest else (k₀, v₀) :: dictInsert rest k v

/-- Python dict merge \x7b**a, **b\x7d: entries of b override entries of a,
fresh keys of b are appended in order. -/
def dictMerge (a b : List (String × Value)) : List (String × Value) :=
  b.foldl (fun acc kv => dictInsert acc kv.1 kv.2) a

/-- Python truthiness of a value. -/
def Value.truthy : Value → Bool
  | .null => false
  | .str s => s ≠ ""
  | .bool b => b
  | .num n => n ≠ 0
  | .list vs => ¬ vs.isEmpty
  | .obj kvs => ¬ kvs.isEmpty

/-- Truthiness of an optional value (None is falsy). -/
def optTruthy : Option Value → Bool
  | none => false
  | some v => v.truthy

/-! ## PluginType (base.py lines 42-89) -/

/-- The closed enumeration of plugin categories. -/
inductive PluginType where
  | extractors
  | loaders
  | transforms
  | models
  | dashboards
  | orchestrators
  | transformers
  | files
deriving DecidableEq, Repr

/-- All members of the enumeration, in declaration order. -/
def PluginType.all : List PluginType :=
  [.extractors, .loaders, .transforms, .models, .dashboards, .orchestrators,
   .transformers, .files]

/-- The raw string value of each enum member. -/
def PluginType.value : PluginType → String
  | .extractors => "extractors"
  | .loaders => "loaders"
  | .transforms => "transforms"
  | .models => "models"
  | .dashboards => "dashboards"
  | .orchestrators => "orchestrators"
  | .transformers => "transformers"
  | .files => "files"

/-- Resolution of a raw string to an enum member, as the Enum call
PluginType(value); None models the invalid-enum ValueError. -/
def PluginType.ofValue (s : String) : Option PluginType :=
  PluginType.all.find? (fun t => t.value = s)

/-- value[:-1]: drop the trailing "s" (base.py line 65). -/
def PluginType.singular (t : PluginType) : String :=
  t.value.dropRight 1

/-- Python str.capitalize: first character upper-cased, the rest lower-cased. -/
def pyCapitalize (s : String) : String :=
  match s.data with
  | [] => ""
  | c :: rest => String.mk (c.toUpper :: rest.map Char.toLower)

/-- descriptor property (base.py lines 56-60). -/
def PluginType.descriptor (t : PluginType) : String :=
  if t = .files then "file bundle" else t.singular

/-- Python value.endswith("s"): the last character is an s. -/
def pyEndsWithS (s : String) : Bool :=
  s.data.getLast? = some 's'

/-- from_cli_argument (base.py lines 84-89): append a trailing "s" when
absent, then resolve the raw value. -/
def PluginType.from_cli_argument (s : String) : Option PluginType :=
  PluginType.ofValue (if pyEndsWithS s then s else s ++ "s")

/-! ## SettingDefinition (collaborator, modelled) and Variant (base.py 121-151) -/

/-- Modelled from the spec: the setting-definition collaborator
(meltano.core.setting_definition is outside src/). A setting has a name, an
optional bound value, and the custom / default markers that from_missing
sets on synthesized settings. -/
structure SettingDefinition where
  name : String
  value : Option Value := none
  custom : Bool := false
  isDefault : Bool := false
deriving Repr

/-- Modelled from the spec: parsing one serialized setting mapping back into
a SettingDefinition. -/
def settingParse (v : Value) : SettingDefinition :=
  match v with
  | .obj kvs =>
    { name := match dictLookup kvs "name" with | some (.str s) => s | _ => ""
      value := dictLookup kvs "value"
      custom := match dictLookup kvs "custom" with | some (.bool b) => b | _ => false
      isDefault := match dictLookup kvs "default" with | some (.bool b) => b | _ => false }
  | _ => { name := "" }

/-- Modelled from the spec: serializing one setting definition, emitting only
the fields that are set. -/
def settingToValue (s : SettingDefinition) : Value :=
  .obj (("name", .str s.name) ::
    ((match s.value with | some v => [("value", v)] | none => []) ++
     (if s.custom then [("custom", .bool true)] else []) ++
     (if s.isDefault then [("default", .bool true)] else [])))

/-- One concrete implementation of a connector (base.py lines 121-151).
Fields mirror the Variant constructor keywords. -/
structure Variant where
  name : Option String := none
  original : Option Value := none
  deprecated : Option Value := none
  docs : Option Value := none
  repo : Option Value := none
  pip_url : Option Value := none
  executable : Option Value := none
  capabilities : List Value := []
  settings_group_validation : List Value := []
  settings : List SettingDefinition := []
  extras : List (String × Value) := []
deriving Repr

/-- The constructor keywords the Variant recognizes besides name
(base.py lines 125-137); anything else lands in the variant extras. -/
def variantFieldKeys : List String :=
  ["original", "deprecated", "docs", "repo", "pip_url", "executable",
   "capabilities", "settings_group_validation", "settings"]

/-- Variant(name, **kwargs) (base.py lines 125-151): recognized keywords
become fields, list-valued fields default to empty lists, settings entries
are parsed, the remaining keywords are kept as extras in order. -/
def mkVariant (name : Option String) (kwargs : List (String × Value)) : Variant :=
  { name := name
    original := dictLookup kwargs "original"
    deprecated := dictLookup kwargs "deprecated"
    docs := dictLookup kwargs "docs"
    repo := dictLookup kwargs "repo"
    pip_url := dictLookup kwargs "pip_url"
    executable := dictLookup kwargs "executable"
    capabilities := match dictLookup kwargs "capabilities" with
      | some (.list vs) => vs
      | _ => []
    settings_group_validation := match dictLookup kwargs "settings_group_validation" with
      | some (.list vs) => vs
      | _ => []
    settings := match dictLookup kwargs "settings" with
      | some (.list vs) => vs.map settingParse
      | _ => []
    extras := kwargs.filter (fun kv => ¬ variantFieldKeys.contains kv.1) }

/-- Variant.parse on a serialized mapping: the name key feeds the name
parameter, every other key is a constructor keyword. -/
def variantParse (v : Value) : Option Variant :=
  match v with
  | .obj kvs =>
    some (mkVariant
      (match dictLookup kvs "name" with | some (.str s) => some s | _ => none)
      (kvs.filter (fun kv => kv.1 ≠ "name")))
  | _ => none

/-- Variant.DEFAULT_NAME (base.py line 123). -/
def Variant.DEFAULT_NAME : String := "default"

/-- Variant.ORIGINAL_NAME (base.py line 122). -/
def Variant.ORIGINAL_NAME : String := "original"

/-! ## PluginDefinition (base.py 154-237) -/

/-- The declared description of a connector (base.py lines 154-188).
The Python attribute namespace is spelled nameSpace here because namespace
is a Lean keyword; hidden, label, logo_url and description are the
presentation attributes popped out of the extras by set_presentation_attrs
(base.py lines 112-118). -/
structure PluginDefinition where
  type : PluginType
  name : String
  nameSpace : String
  hidden : Option Value := none
  label : Option Value := none
  logo_url : Option Value := none
  description : Option Value := none
  extras : List (String × Value) := []
  variants : List Variant := []
deriving Repr

/-- The keys set_presentation_attrs pops out of a supplied extras mapping
(base.py lines 112-118). -/
def presentationKeys : List String :=
  ["hidden", "label", "logo_url", "description"]

/-- PluginDefinition(plugin_type, name, namespace, variant, variants=[],
**extras) on the implicit-variant path (base.py lines 174-188): with a falsy
variants argument, one Variant is built from the flat keywords, its extras
are promoted to the definition (the variant keeps none), and the
presentation keys are popped out of the promoted extras. -/
def pluginDefOfFlat (t : PluginType) (name ns : String)
    (variantName : Option String) (kwargs : List (String × Value)) :
    PluginDefinition :=
  let v := mkVariant variantName kwargs
  let extras := v.extras
  let v := { v with extras := [] }
  { type := t
    name := name
    nameSpace := ns
    hidden := dictLookup extras "hidden"
    label := dictLookup extras "label"
    logo_url := dictLookup extras "logo_url"
    description := dictLookup extras "description"
    extras := extras.filter (fun kv => ¬ presentationKeys.contains kv.1)
    variants := [v] }

/-- The same constructor on the explicit-variants path (base.py lines
184-188): the supplied variants are kept and the flat keywords go through
set_presentation_attrs, the remainder staying definition extras. -/
def pluginDefOfVariants (t : PluginType) (name ns : String)
    (variants : List Variant) (kwargs : List (String × Value)) :
    PluginDefinition :=
  { type := t
    name := name
    nameSpace := ns
    hidden := dictLookup kwargs "hidden"
    label := dictLookup kwargs "label"
    logo_url := dictLookup kwargs "logo_url"
    description := dictLookup kwargs "description"
    extras := kwargs.filter (fun kv => ¬ presentationKeys.contains kv.1)
    variants := variants }

/-- The errors variant resolution can raise: VariantNotFoundError
(base.py lines 19-27) and the IndexError an empty variants list would give
variants[0]. -/
inductive FindError where
  | variantNotFound (plugin : PluginDefinition) (variant_name : String)
  | indexError
deriving Repr

/-- Modelled from the spec: utils.find_named (outside src/) does the
exact-name lookup inside a list of named objects. -/
def find_named (vs : List Variant) (n : String) : Option Variant :=
  vs.find? (fun v => v.name = some n)

/-- get_variant (base.py lines 203-207): exact-name lookup, turning the
NotFound of find_named into a VariantNotFoundError carrying the owning
definition and the requested name. -/
def PluginDefinition.get_variant (d : PluginDefinition) (variant_name : String) :
    Except FindError Variant :=
  match find_named d.variants variant_name with
  | some v => .ok v
  | none => .error (.variantNotFound d variant_name)

/-- variants[0], raising IndexError on an empty list. -/
def PluginDefinition.headVariant (d : PluginDefinition) : Except FindError Variant :=
  match d.variants with
  | [] => .error .indexError
  | v :: _ => .ok v

/-- The selector accepted by find_variant: a Variant instance, None, or a
string. -/
inductive VariantSelector where
  | variant (v : Variant)
  | name (s : Option String)

/-- find_variant (base.py lines 209-222). -/
def PluginDefinition.find_variant (d : PluginDefinition) :
    VariantSelector → Except FindError Variant
  | .variant v => .ok v
  | .name none => d.headVariant
  | .name (some s) =>
    if s = Variant.DEFAULT_NAME then d.headVariant
    else if s = Variant.ORIGINAL_NAME then
      match d.variants.find? (fun v => optTruthy v.original) with
      | some v => .ok v
      | none => d.headVariant
    else d.get_variant s

/-- variant.name or Variant.ORIGINAL_NAME (base.py line 228): a falsy name
(None or the empty string) displays as original. -/
def variantDisplayName (v : Variant) : String :=
  match v.name with
  | some s => if s = "" then Variant.ORIGINAL_NAME else s
  | none => Variant.ORIGINAL_NAME

/-- The names list the loop of list_variant_names builds (base.py lines
224-235): index 0 is annotated (default), later deprecated variants are
annotated (deprecated). -/
def PluginDefinition.annotatedVariantNames (d : PluginDefinition) : List String :=
  d.variants.enum.map (fun iv =>
    let nm := variantDisplayName iv.2
    if iv.1 = 0 then nm ++ " (default)"
    else if optTruthy iv.2.deprecated then nm ++ " (deprecated)"
    else nm)

/-- list_variant_names (base.py lines 224-237): the joined names list. -/
def PluginDefinition.list_variant_names (d : PluginDefinition) : String :=
  String.intercalate ", " d.annotatedVariantNames

/-- A single-quote character, used by the error message. -/
def quoteChar : String := String.singleton (Char.ofNat 39)

/-- The VariantNotFoundError message (base.py lines 24-25). -/
def variantNotFoundMessage (d : PluginDefinition) (variant_name : String) : String :=
  pyCapitalize d.type.descriptor ++ " " ++ quoteChar ++ d.name ++ quoteChar ++
    " variant " ++ quoteChar ++ variant_name ++ quoteChar ++
    " is not known to Meltano. " ++ "Variants: " ++ d.list_variant_names

/-! ## Serialization (base.py 190-201) and re-parsing -/

/-- Emit one pair when the optional value is set, nothing otherwise. -/
def optPair (k : String) (v : Option Value) : List (String × Value) :=
  match v with
  | some w => [(k, w)]
  | none => []

/-- Modelled from the spec: the Canonical iteration of a Variant past its
name field (the Canonical base class is outside src/). Fields are emitted
in declaration order per the manifest shape of the spec, absent optional
fields are omitted, and the extras are emitted inline at the end. -/
def variantTailPairs (v : Variant) : List (String × Value) :=
  optPair "original" v.original ++
  optPair "deprecated" v.deprecated ++
  optPair "docs" v.docs ++
  optPair "repo" v.repo ++
  optPair "pip_url" v.pip_url ++
  optPair "executable" v.executable ++
  ([("capabilities", Value.list v.capabilities),
    ("settings_group_validation", Value.list v.settings_group_validation),
    ("settings", Value.list (v.settings.map settingToValue))] ++
   v.extras)

/-- The full Variant iteration: the name field first when set, then the
remaining fields. -/
def variantPairs (v : Variant) : List (String × Value) :=
  (match v.name with | some s => [("name", Value.str s)] | none => []) ++
  variantTailPairs v

/-- Modelled from the spec: the Canonical iteration of the presentation
attributes, in the order set_presentation_attrs sets them. -/
def presentationPairs (d : PluginDefinition) : List (String × Value) :=
  optPair "hidden" d.hidden ++ optPair "label" d.label ++
  (optPair "logo_url" d.logo_url ++ optPair "description" d.description)

/-- The definition attributes other than variants, in constructor order. -/
def pluginDefBasePairs (d : PluginDefinition) : List (String × Value) :=
  ("name", Value.str d.name) :: ("namespace", Value.str d.nameSpace) ::
  (presentationPairs d ++ d.extras)

/-- PluginDefinition.__iter__ (base.py lines 190-201): a sole variant has
its pairs inlined in place of the variants field, its name key renamed to
variant; otherwise the variants serialize as a nested list. -/
def PluginDefinition.iterPairs (d : PluginDefinition) : List (String × Value) :=
  pluginDefBasePairs d ++
  (match d.variants with
   | [v] =>
     (variantPairs v).map (fun kv =>
       (if kv.1 = "name" then "variant" else kv.1, kv.2))
   | vs => [("variants", Value.list (vs.map (fun v => Value.obj (variantPairs v))))])

/-- Re-parsing a serialized flat mapping into a PluginDefinition, as the
constructor call PluginDefinition(plugin_type, **mapping): name and
namespace feed the positional parameters, variant and variants feed their
keywords, everything else is a flat keyword. -/
def PluginDefinition.parse (t : PluginType) (pairs : List (String × Value)) :
    Option PluginDefinition :=
  match dictLookup pairs "name", dictLookup pairs "namespace" with
  | some (.str n), some (.str ns) =>
    let kwargs := pairs.filter (fun kv =>
      ¬ ["name", "namespace", "variant", "variants"].contains kv.1)
    let variantName := match dictLookup pairs "variant" with
      | some (.str s) => some s
      | _ => none
    match dictLookup pairs "variants" with
    | some (.list vs) =>
      if vs.isEmpty then some (pluginDefOfFlat t n ns variantName kwargs)
      else (vs.mapM variantParse).map
        (fun variants => pluginDefOfVariants t n ns variants kwargs)
    | _ => some (pluginDefOfFlat t n ns variantName kwargs)
  | _, _ => none

/-! ## BasePlugin (base.py 240-290) -/

/-- The runtime view pairing one definition with one selected variant
(base.py lines 240-247). -/
structure BasePlugin where
  plugin_def : PluginDefinition
  variant : Variant

/-- BasePlugin.extras (base.py lines 266-268): definition extras overridden
by variant extras. -/
def BasePlugin.extras (bp : BasePlugin) : List (String × Value) :=
  dictMerge bp.plugin_def.extras bp.variant.extras

mutual

/-- Modelled from the spec: utils.flatten on one value (outside src/); a
nested object key joins its parent path with a dot. -/
def flattenValue (pfx : String) : Value → List (String × Value)
  | .obj kvs => flattenEntries pfx kvs
  | v => [(pfx, v)]

/-- Modelled from the spec: utils.flatten over the entries of an object. -/
def flattenEntries (pfx : String) : List (String × Value) → List (String × Value)
  | [] => []
  | (k, v) :: rest => flattenValue (pfx ++ "." ++ k) v ++ flattenEntries pfx rest

end

/-- Modelled from the spec: utils.flatten of a whole mapping. -/
def flattenDict (d : List (String × Value)) : List (String × Value) :=
  match d with
  | [] => []
  | (k, v) :: rest => flattenValue k v ++ flattenDict rest

/-- Modelled from the spec: SettingDefinition.from_missing (outside src/)
synthesizes a default-marked setting definition for each flattened default
key that matches no existing setting name, in order. -/
def SettingDefinition.from_missing (existing : List SettingDefinition)
    (defaults : List (String × Value)) : List SettingDefinition :=
  ((flattenDict defaults).filter
      (fun kv => ¬ existing.any (fun s => s.name = kv.1))).map
    (fun kv => { name := kv.1, value := some kv.2, custom := false, isDefault := true })

/-- The loop body of extra_settings (base.py lines 275-280): bind the
prefixed default value when one exists and is not None. -/
def bindExtraSetting (defaults : List (String × Value)) (s : SettingDefinition) :
    SettingDefinition :=
  match dictLookup defaults s.name with
  | some .null => s
  | some v => { s with value := some v }
  | none => s

/-- The defaults mapping of extra_settings (base.py line 272): the merged
extras with every key prefixed by an underscore. -/
def BasePlugin.prefixedDefaults (bp : BasePlugin) : List (String × Value) :=
  bp.extras.map (fun kv => ("_" ++ kv.1, kv.2))

/-- BasePlugin.extra_settings (base.py lines 270-290), parameterized by the
class attribute EXTRA_SETTINGS of the concrete plugin category. -/
def BasePlugin.extra_settings (bp : BasePlugin)
    (EXTRA_SETTINGS : List SettingDefinition) : List SettingDefinition :=
  let defaults := bp.prefixedDefaults
  let existing := EXTRA_SETTINGS.map (bindExtraSetting defaults)
  existing ++ SettingDefinition.from_missing existing defaults

/-! ## SelectService (select_service.py 63-93) -/

/-- The ValueError list.remove raises on a missing element. -/
inductive SelectError where
  | missingElement
deriving DecidableEq, Repr

/-- The state update works on: the extras mapping of the resolved target
config (the bare plugin or its environment override), whether an
environment is active, and how often each persistence call has run. -/
structure SelectWorld where
  pluginExtras : List (String × Value)
  envActive : Bool
  updatePluginCalls : Nat := 0
  updateEnvPluginCalls : Nat := 0
deriving Repr

/-- The select list of the target config, as patterns =
plugin.extras.get("select", []) extracts it (select_service.py line 77);
a select key is expected to hold a list when present. -/
def SelectWorld.selectList (w : SelectWorld) : List Value :=
  match dictLookup w.pluginExtras "select" with
  | some (.list vs) => vs
  | _ => []

/-- Python list.remove: drop the first element equal to p. -/
def removeFirstValue (p : Value) : List Value → List Value
  | [] => []
  | v :: vs => if Value.beq v p then vs else v :: removeFirstValue p vs

/-- _get_pattern_string (select_service.py lines 89-93). -/
def SelectService.get_pattern_string (entities_filter attributes_filter : String)
    (exclude : Bool) : String :=
  (if exclude then "!" else "") ++ entities_filter ++ "." ++ attributes_filter

/-- SelectService.update (select_service.py lines 63-87): build the pattern,
read the select list of the target config (defaulting to empty), remove the
first exact match or append, write the list back, then run exactly one of
the two persistence calls. A remove of a missing pattern raises before any
write, leaving the world as it was. The select key is expected to hold a
list when present. -/
def SelectService.update (w : SelectWorld)
    (entities_filter attributes_filter : String) (exclude : Bool)
    (remove : Bool := false) : Option SelectError × SelectWorld :=
  let this_pattern :=
    SelectService.get_pattern_string entities_filter attributes_filter exclude
  let patterns := w.selectList
  if remove && !(patterns.any (fun v => Value.beq v (.str this_pattern))) then
    (some .missingElement, w)
  else
    let patterns :=
      if remove then removeFirstValue (.str this_pattern) patterns
      else patterns ++ [.str this_pattern]
    let w := { w with pluginExtras := dictInsert w.pluginExtras "select" (.list patterns) }
    if w.envActive then
      (none, { w with updateEnvPluginCalls := w.updateEnvPluginCalls + 1 })
    else
      (none, { w with updatePluginCalls := w.updatePluginCalls + 1 })

/-! ## Association-list lemmas -/

/-- Projection of a value to its string payload, used to compare results
without deciding full value equality. -/
def valueAsStr : Value → Option String
  | .str s => some s
  | _ => none

theorem dictLookup_nil (k : String) : dictLookup [] k = none := rfl

theorem dictLookup_cons (k₀ : String) (v₀ : Value) (rest : List (String × Value))
    (k : String) :
    dictLookup ((k₀, v₀) :: rest) k =
      if k₀ = k then some v₀ else dictLookup rest k := by
  simp only [dictLookup, List.find?]
  by_cases h : k₀ = k <;> simp [h]

theorem dictLookup_append (a b : List (String × Value)) (k : String) :
    dictLookup (a ++ b) k =
      match dictLookup a k with
      | some v => some v
      | none => dictLookup b k := by
  induction a with
  | nil => simp [dictLookup_nil]
  | cons kv rest ih =>
    obtain ⟨k₀, v₀⟩ := kv
    rw [List.cons_append, dictLookup_cons, dictLookup_cons]
    by_cases h : k₀ = k <;> simp [h, ih]

theorem dictLookup_eq_none (l : List (String × Value)) (k : String)
    (h : ∀ kv ∈ l, kv.1 ≠ k) : dictLookup l k = none := by
  induction l with
  | nil => rfl
  | cons kv rest ih =>
    rw [dictLookup_cons]
    simp only [List.mem_cons, forall_eq_or_imp] at h
    simp [h.1, ih h.2]

theorem dictLookup_optPair_self (k : String) (v : Option Value) :
    dictLookup (optPair k v) k = v := by
  cases v <;> simp [optPair, dictLookup_nil, dictLookup_cons]

theorem dictLookup_optPair_ne (k k' : String) (v : Option Value) (h : k ≠ k') :
    dictLookup (optPair k v) k' = none := by
  cases v <;> simp [optPair, dictLookup_nil, dictLookup_cons, h]

theorem dictLookup_filter (l : List (String × Value)) (p : String × Value → Bool)
    (k : String) (h : ∀ kv ∈ l, kv.1 = k → p kv = true) :
    dictLookup (l.filter p) k = dictLookup l k := by
  induction l with
  | nil => rfl
  | cons kv rest ih =>
    obtain ⟨k₀, v₀⟩ := kv
    simp only [List.mem_cons, forall_eq_or_imp] at h
    have ihr := ih h.2
    by_cases hk : k₀ = k
    · subst hk
      have hp : p (k₀, v₀) = true := h.1 rfl
      simp [List.filter_cons, hp, dictLookup_cons, ihr]
    · by_cases hp : p (k₀, v₀) = true
      · simp [List.filter_cons, hp, dictLookup_cons, hk, ihr]
      · rw [Bool.not_eq_true] at hp
        simp [List.filter_cons, hp, dictLookup_cons, hk, ihr]

theorem dictLookup_dictInsert (d : List (String × Value)) (k : String) (v : Value)
    (k' : String) :
    dictLookup (dictInsert d k v) k' =
      if k = k' then some v else dictLookup d k' := by
  induction d with
  | nil =>
    by_cases h : k = k' <;> simp [dictInsert, dictLookup_cons, dictLookup_nil, h]
  | cons kv rest ih =>
    obtain ⟨k₀, v₀⟩ := kv
    by_cases h0 : k₀ = k
    · subst h0
      by_cases h : k₀ = k' <;> simp [dictInsert, dictLookup_cons, h]
    · by_cases h : k = k'
      · subst h
        simp [dictInsert, h0, dictLookup_cons, ih]
      · have h' : k' ≠ k := fun hh => h hh.symm
        by_cases h0' : k₀ = k' <;>
          simp [dictInsert, h0, h0', dictLookup_cons, ih, h, h']

theorem dictLookup_keys_eq_none (l : List (String × Value)) (k : String)
    (h : ¬ k ∈ l.map Prod.fst) : dictLookup l k = none := by
  apply dictLookup_eq_none
  intro kv hkv heq
  exact h (heq ▸ List.mem_map_of_mem Prod.fst hkv)

theorem dictMerge_lookup (a b : List (String × Value)) (k : String)
    (hnd : (b.map Prod.fst).Nodup) :
    dictLookup (dictMerge a b) k =
      match dictLookup b k with
      | some v => some v
      | none => dictLookup a k := by
  induction b generalizing a with
  | nil => simp [dictMerge, dictLookup_nil]
  | cons kv rest ih =>
    obtain ⟨k₀, v₀⟩ := kv
    simp only [List.map_cons, List.nodup_cons] at hnd
    have step : dictMerge a ((k₀, v₀) :: rest) = dictMerge (dictInsert a k₀ v₀) rest := rfl
    rw [step, ih _ hnd.2, dictLookup_cons]
    by_cases hk : k₀ = k
    · subst hk
      have : dictLookup rest k₀ = none := dictLookup_keys_eq_none rest k₀ hnd.1
      simp [this, dictLookup_dictInsert]
    · cases hr : dictLookup rest k <;> simp [hr, dictLookup_dictInsert, hk]

/-! ## Claim theorems -/

/-- C4: SelectService.update builds the pattern string
"!" ++ entities_filter ++ "." ++ attributes_filter when exclude is true and
entities_filter ++ "." ++ attributes_filter when exclude is false; an
exclude update writes exactly that string into the select list, and the
users / id exclude pattern is "!users.id". -/
theorem selectService_update_pattern_string
    (entities_filter attributes_filter : String) :
    SelectService.get_pattern_string entities_filter attributes_filter true =
      "!" ++ entities_filter ++ "." ++ attributes_filter ∧
    SelectService.get_pattern_string entities_filter attributes_filter false =
      entities_filter ++ "." ++ attributes_filter ∧
    (SelectService.update ⟨[], false, 0, 0⟩ entities_filter attributes_filter
        true false).2.selectList =
      [Value.str ("!" ++ entities_filter ++ "." ++ attributes_filter)] ∧
    (SelectService.update ⟨[], false, 0, 0⟩ entities_filter attributes_filter
        false false).2.selectList =
      [Value.str (entities_filter ++ "." ++ attributes_filter)] ∧
    SelectService.get_pattern_string "users" "id" true = "!users.id" := by
  refine ⟨rfl, rfl, ?_, ?_, rfl⟩ <;>
    simp [SelectService.update, SelectService.get_pattern_string,
      SelectWorld.selectList, dictLookup_nil, dictInsert, dictLookup_cons]

/-- Every PluginType is listed in PluginType.all. -/
theorem pluginType_mem_all (t : PluginType) : t ∈ PluginType.all := by
  cases t <;> simp [PluginType.all]

/-- C6: from_cli_argument maps both the singular and the raw value of every
PluginType back to it, and in general resolves the input normalized by a
trailing "s" when absent, failing exactly when the normalized value is not
one of the eight known category values. -/
theorem pluginType_from_cli_argument_spec :
    (∀ t : PluginType,
      PluginType.from_cli_argument t.singular = some t ∧
      PluginType.from_cli_argument t.value = some t) ∧
    (∀ s : String,
      (∃ t : PluginType, PluginType.from_cli_argument s = some t ∧
        t.value = (if pyEndsWithS s then s else s ++ "s")) ∨
      (PluginType.from_cli_argument s = none ∧
        ∀ t : PluginType, t.value ≠ (if pyEndsWithS s then s else s ++ "s"))) := by
  constructor
  · intro t
    cases t <;> exact ⟨by decide, by decide⟩
  · intro s
    unfold PluginType.from_cli_argument
    cases hf : PluginType.ofValue (if pyEndsWithS s then s else s ++ "s") with
    | some t =>
      left
      refine ⟨t, rfl, ?_⟩
      unfold PluginType.ofValue at hf
      have hp := List.find?_some hf
      exact of_decide_eq_true hp
    | none =>
      right
      refine ⟨rfl, fun t heq => ?_⟩
      unfold PluginType.ofValue at hf
      have := List.find?_eq_none.mp hf t (pluginType_mem_all t)
      simp [heq] at this

/-- C1: find_variant resolution order: a Variant instance is returned
unchanged; None and the sentinel "default" give the first declared variant;
the sentinel "original" gives the first variant with a truthy original flag,
falling back to the first declared variant when none is flagged; any other
string goes through the exact-name lookup of get_variant, propagating its
variant-not-found error. -/
theorem find_variant_resolution (d : PluginDefinition) (v v₀ : Variant)
    (rest : List Variant) (hv : d.variants = v₀ :: rest) :
    d.find_variant (.variant v) = .ok v ∧
    d.find_variant (.name none) = .ok v₀ ∧
    d.find_variant (.name (some "default")) = .ok v₀ ∧
    (∀ w, d.variants.find? (fun u => optTruthy u.original) = some w →
      d.find_variant (.name (some "original")) = .ok w) ∧
    (d.variants.find? (fun u => optTruthy u.original) = none →
      d.find_variant (.name (some "original")) = .ok v₀) ∧
    (∀ s : String, s ≠ "default" → s ≠ "original" →
      d.find_variant (.name (some s)) = d.get_variant s) ∧
    (∀ s : String, s ≠ "default" → s ≠ "original" →
      (∀ u ∈ d.variants, u.name ≠ some s) →
      d.find_variant (.name (some s)) = .error (.variantNotFound d s)) := by
  have hhead : d.headVariant = .ok v₀ := by
    simp [PluginDefinition.headVariant, hv]
  refine ⟨rfl, hhead, ?_, ?_, ?_, ?_, ?_⟩
  · simp [PluginDefinition.find_variant, Variant.DEFAULT_NAME, hhead]
  · intro w hw
    simp [PluginDefinition.find_variant, Variant.DEFAULT_NAME,
      Variant.ORIGINAL_NAME, hw]
  · intro hnone
    simp [PluginDefinition.find_variant, Variant.DEFAULT_NAME,
      Variant.ORIGINAL_NAME, hnone, hhead]
  · intro s hs1 hs2
    simp [PluginDefinition.find_variant, Variant.DEFAULT_NAME,
      Variant.ORIGINAL_NAME, hs1, hs2]
  · intro s hs1 hs2 habs
    have hfind : d.variants.find? (fun u => u.name = some s) = none := by
      apply List.find?_eq_none.mpr
      intro u hu
      simp [habs u hu]
    simp [PluginDefinition.find_variant, Variant.DEFAULT_NAME,
      Variant.ORIGINAL_NAME, hs1, hs2, PluginDefinition.get_variant,
      find_named, hfind]

/-- A two-variant definition used to instantiate the resolution theorem. -/
def variantA : Variant := mkVariant (some "a") [("deprecated", Value.bool true)]

/-- The second variant of the example definition, flagged original. -/
def variantB : Variant := mkVariant (some "b") [("original", Value.bool true)]

/-- A concrete definition with variants a and b. -/
def defAB : PluginDefinition :=
  pluginDefOfVariants .extractors "tap-x" "tap_x" [variantA, variantB] []

theorem find_variant_resolution_witness :
    defAB.find_variant (.name none) = .ok variantA ∧
    defAB.find_variant (.name (some "original")) = .ok variantB ∧
    defAB.find_variant (.name (some "missing")) =
      .error (.variantNotFound defAB "missing") := by
  have h := find_variant_resolution defAB variantA variantA [variantB] rfl
  refine ⟨h.2.1, ?_, ?_⟩
  · exact h.2.2.2.1 variantB rfl
  · exact h.2.2.2.2.2.2 "missing" (by decide) (by decide) (by decide)

/-- C8: the extras of a BasePlugin are the definition extras overridden
key by key by the variant extras: a key of the variant extras takes the
variant value, any other key of the definition extras keeps the definition
value, and a key in neither mapping is absent from the result. -/
theorem basePlugin_extras_spec (pd : PluginDefinition) (v : Variant)
    (hnd : (v.extras.map Prod.fst).Nodup) (k : String) :
    dictLookup (BasePlugin.extras ⟨pd, v⟩) k =
      match dictLookup v.extras k with
      | some w => some w
      | none => dictLookup pd.extras k :=
  dictMerge_lookup pd.extras v.extras k hnd

/-- The definition side of the extras-merge example. -/
def defC8 : PluginDefinition :=
  { type := .extractors, name := "tap-x", nameSpace := "tap_x",
    extras := [("x", Value.num 1), ("y", Value.num 2)], variants := [] }

/-- The variant side of the extras-merge example. -/
def varC8 : Variant := { name := some "a", extras := [("y", Value.num 3), ("z", Value.num 4)] }

theorem basePlugin_extras_spec_witness :
    dictLookup (BasePlugin.extras ⟨defC8, varC8⟩) "y" = some (Value.num 3) ∧
    dictLookup (BasePlugin.extras ⟨defC8, varC8⟩) "x" = some (Value.num 1) ∧
    dictLookup (BasePlugin.extras ⟨defC8, varC8⟩) "w" = none := by
  refine ⟨?_, ?_, ?_⟩
  · exact (basePlugin_extras_spec defC8 varC8 (by decide) "y").trans rfl
  · exact (basePlugin_extras_spec defC8 varC8 (by decide) "x").trans rfl
  · exact (basePlugin_extras_spec defC8 varC8 (by decide) "w").trans rfl

/-- C10: a remove of a pattern that is not in the select list returns the
missing-element error with the whole world unchanged: the extras mapping is
not rewritten and neither persistence counter moves. -/
theorem select_update_remove_missing_unchanged (w : SelectWorld)
    (entities_filter attributes_filter : String) (exclude : Bool)
    (habsent : w.selectList.any (fun v => Value.beq v
      (.str (SelectService.get_pattern_string entities_filter attributes_filter
        exclude))) = false) :
    SelectService.update w entities_filter attributes_filter exclude true =
      (some .missingElement, w) ∧
    (SelectService.update w entities_filter attributes_filter exclude
      true).2.pluginExtras = w.pluginExtras ∧
    (SelectService.update w entities_filter attributes_filter exclude
      true).2.updatePluginCalls = w.updatePluginCalls ∧
    (SelectService.update w entities_filter attributes_filter exclude
      true).2.updateEnvPluginCalls = w.updateEnvPluginCalls := by
  have hmain : SelectService.update w entities_filter attributes_filter exclude
      true = (some .missingElement, w) := by
    simp [SelectService.update, habsent]
  exact ⟨hmain, by rw [hmain], by rw [hmain], by rw [hmain]⟩

/-- A world with two selection patterns, no environment. -/
def worldC10 : SelectWorld :=
  { pluginExtras := [("select", Value.list [Value.str "a.b", Value.str "c.d"])],
    envActive := false }

theorem select_update_remove_missing_unchanged_witness :
    SelectService.update worldC10 "users" "id" true true =
      (some .missingElement, worldC10) :=
  (select_update_remove_missing_unchanged worldC10 "users" "id" true
    (by decide)).1

/-- Removing an element just appended drops exactly it when no earlier
element compares equal. -/
theorem removeFirstValue_append_self (p : Value) (vs : List Value)
    (hrefl : Value.beq p p = true)
    (h : ∀ v ∈ vs, Value.beq v p = false) :
    removeFirstValue p (vs ++ [p]) = vs := by
  induction vs with
  | nil => simp [removeFirstValue, hrefl]
  | cons v rest ih =>
    simp only [List.mem_cons, forall_eq_or_imp] at h
    simp [removeFirstValue, h.1, ih h.2]

/-- A world whose select key holds the given list. -/
theorem selectList_of_extras (w : SelectWorld) (vs : List Value)
    (h : dictLookup w.pluginExtras "select" = some (.list vs)) :
    w.selectList = vs := by
  simp [SelectWorld.selectList, h]

/-- Projections of an append update: no error, the select key rewritten to
the old list plus the built pattern, environment flag untouched. -/
theorem select_update_append_proj (w : SelectWorld) (e a : String) (x : Bool) :
    (SelectService.update w e a x false).1 = none ∧
    (SelectService.update w e a x false).2.pluginExtras =
      dictInsert w.pluginExtras "select"
        (Value.list (w.selectList ++
          [Value.str (SelectService.get_pattern_string e a x)])) ∧
    (SelectService.update w e a x false).2.envActive = w.envActive := by
  cases henv : w.envActive <;> simp [SelectService.update, henv]

/-- Projections of a successful remove update: no error and the select key
rewritten to the list with the first match dropped. -/
theorem select_update_remove_proj (w : SelectWorld) (e a : String) (x : Bool)
    (hmem : w.selectList.any (fun v => Value.beq v
      (Value.str (SelectService.get_pattern_string e a x))) = true) :
    (SelectService.update w e a x true).1 = none ∧
    (SelectService.update w e a x true).2.pluginExtras =
      dictInsert w.pluginExtras "select"
        (Value.list (removeFirstValue
          (Value.str (SelectService.get_pattern_string e a x))
          w.selectList)) := by
  cases henv : w.envActive <;> simp [SelectService.update, henv, hmem]

/-- C5 amended: update with remove=False appends the built pattern to the
select list (empty when absent); update with remove=True drops the first
exact match, so appending a pattern that was not already present and then
removing it restores the list, and removing an absent pattern raises the
missing-element error. -/
theorem select_update_append_then_remove (w : SelectWorld)
    (entities_filter attributes_filter : String) (exclude : Bool) :
    (SelectService.update w entities_filter attributes_filter exclude false).1 =
      none ∧
    (SelectService.update w entities_filter attributes_filter exclude
        false).2.selectList =
      w.selectList ++ [Value.str (SelectService.get_pattern_string
        entities_filter attributes_filter exclude)] ∧
    (w.selectList.any (fun v => Value.beq v (Value.str
        (SelectService.get_pattern_string entities_filter attributes_filter
          exclude))) = false →
      (SelectService.update
        (SelectService.update w entities_filter attributes_filter exclude
          false).2 entities_filter attributes_filter exclude true).1 = none ∧
      (SelectService.update
        (SelectService.update w entities_filter attributes_filter exclude
          false).2 entities_filter attributes_filter exclude
          true).2.selectList = w.selectList) ∧
    (w.selectList.any (fun v => Value.beq v (Value.str
        (SelectService.get_pattern_string entities_filter attributes_filter
          exclude))) = false →
      SelectService.update w entities_filter attributes_filter exclude true =
        (some .missingElement, w)) := by
  obtain ⟨a1, a2, a3⟩ :=
    select_update_append_proj w entities_filter attributes_filter exclude
  have hself : Value.beq
      (Value.str (SelectService.get_pattern_string entities_filter
        attributes_filter exclude))
      (Value.str (SelectService.get_pattern_string entities_filter
        attributes_filter exclude)) = true := by
    simp [Value.beq]
  have hsel1 : (SelectService.update w entities_filter attributes_filter
      exclude false).2.selectList =
      w.selectList ++ [Value.str (SelectService.get_pattern_string
        entities_filter attributes_filter exclude)] := by
    apply selectList_of_extras
    rw [a2, dictLookup_dictInsert]
    simp
  refine ⟨a1, hsel1, ?_, ?_⟩
  · intro habs
    have hmem : ((SelectService.update w entities_filter attributes_filter
        exclude false).2).selectList.any (fun v => Value.beq v
        (Value.str (SelectService.get_pattern_string entities_filter
          attributes_filter exclude))) = true := by
      rw [hsel1]
      simp [List.any_append, hself]
    obtain ⟨b1, b2⟩ := select_update_remove_proj _ entities_filter
      attributes_filter exclude hmem
    refine ⟨b1, ?_⟩
    have hall : ∀ v ∈ w.selectList, Value.beq v
        (Value.str (SelectService.get_pattern_string entities_filter
          attributes_filter exclude)) = false := by
      intro v hv
      have := List.any_eq_false.mp habs v hv
      simpa using this
    have hrm : removeFirstValue
        (Value.str (SelectService.get_pattern_string entities_filter
          attributes_filter exclude))
        ((SelectService.update w entities_filter attributes_filter exclude
          false).2.selectList) = w.selectList := by
      rw [hsel1]
      exact removeFirstValue_append_self _ _ hself hall
    apply selectList_of_extras
    rw [b2, hrm, dictLookup_dictInsert]
    simp
  · intro habs
    simp [SelectService.update, habs]

/-- A world with one pattern, used to instantiate the append-remove theorem. -/
def worldC5 : SelectWorld :=
  { pluginExtras := [("select", Value.list [Value.str "a.b"])], envActive := false }

theorem select_update_append_then_remove_witness :
    (SelectService.update worldC5 "users" "*" false false).2.selectList =
      [Value.str "a.b", Value.str "users.*"] ∧
    (SelectService.update
      (SelectService.update worldC5 "users" "*" false false).2
      "users" "*" false true).2.selectList = [Value.str "a.b"] ∧
    SelectService.update worldC5 "users" "id" false true =
      (some .missingElement, worldC5) := by
  have h := select_update_append_then_remove worldC5 "users" "*" false
  have h2 := select_update_append_then_remove worldC5 "users" "id" false
  exact ⟨h.2.1.trans rfl, ((h.2.2.1 (by decide)).2).trans rfl,
    h2.2.2.2 (by decide)⟩

/-- A world already holding the pattern that is then appended again. -/
def worldC5x : SelectWorld :=
  { pluginExtras := [("select", Value.list [Value.str "users.*", Value.str "c.d"])],
    envActive := false }

/-- C5 counterexample: with select = [users.*, c.d], appending users.* and
then removing it drops the first occurrence, leaving [c.d, users.*], not
the original list, so append-then-remove does not restore the list when the
pattern was already present. -/
theorem select_update_append_then_remove_counterexample :
    ((SelectService.update
        (SelectService.update worldC5x "users" "*" false false).2
        "users" "*" false true).2.selectList).map valueAsStr =
      [some "c.d", some "users.*"] ∧
    worldC5x.selectList.map valueAsStr = [some "users.*", some "c.d"] ∧
    (SelectService.update
        (SelectService.update worldC5x "users" "*" false false).2
        "users" "*" false true).2.selectList ≠ worldC5x.selectList := by
  refine ⟨by decide, by decide, ?_⟩
  intro h
  have h2 := congrArg (List.map valueAsStr) h
  have e1 : ((SelectService.update
      (SelectService.update worldC5x "users" "*" false false).2
      "users" "*" false true).2.selectList).map valueAsStr =
      [some "c.d", some "users.*"] := by decide
  have e2 : worldC5x.selectList.map valueAsStr =
      [some "users.*", some "c.d"] := by decide
  rw [e1, e2] at h2
  exact absurd h2 (by decide)

/-- C2 amended: constructing with no explicit variants synthesizes exactly
one Variant from the flat fields, whose extras end up empty; every
constructor keyword recognized as neither a Variant field nor a
presentation key (hidden, label, logo_url, description) is promoted to the
definition extras, while the presentation keys become the definition
presentation attributes. -/
theorem pluginDef_flat_construction (t : PluginType) (n ns : String)
    (variantName : Option String) (kwargs : List (String × Value)) :
    (pluginDefOfFlat t n ns variantName kwargs).variants =
      [{ mkVariant variantName kwargs with extras := [] }] ∧
    (pluginDefOfFlat t n ns variantName kwargs).extras =
      kwargs.filter (fun kv => ¬ presentationKeys.contains kv.1 ∧
        ¬ variantFieldKeys.contains kv.1) ∧
    (pluginDefOfFlat t n ns variantName kwargs).hidden =
      dictLookup kwargs "hidden" ∧
    (pluginDefOfFlat t n ns variantName kwargs).label =
      dictLookup kwargs "label" ∧
    (pluginDefOfFlat t n ns variantName kwargs).logo_url =
      dictLookup kwargs "logo_url" ∧
    (pluginDefOfFlat t n ns variantName kwargs).description =
      dictLookup kwargs "description" ∧
    (mkVariant variantName kwargs).name = variantName ∧
    (mkVariant variantName kwargs).pip_url = dictLookup kwargs "pip_url" := by
  refine ⟨rfl, ?_, ?_, ?_, ?_, ?_, rfl, rfl⟩
  · show ((kwargs.filter _).filter _) = _
    rw [List.filter_filter]
    apply List.filter_congr
    intro kv _
    simp [Bool.decide_and]
  all_goals
    apply dictLookup_filter
    intro kv _ hk
    simp [hk, variantFieldKeys]

/-- C2 counterexample: label is a constructor keyword not recognized as a
Variant field, yet it is not promoted to the definition extras (which stay
empty); it becomes the label presentation attribute instead. -/
theorem pluginDef_flat_construction_counterexample :
    variantFieldKeys.contains "label" = false ∧
    (pluginDefOfFlat .extractors "tap-x" "tap_x" none
      [("label", Value.str "L")]).extras = [] ∧
    (pluginDefOfFlat .extractors "tap-x" "tap_x" none
      [("label", Value.str "L")]).label = some (Value.str "L") :=
  ⟨by decide, rfl, rfl⟩

/-- C3 amended: for a name absent from the variant list, get_variant raises
the variant-not-found error carrying the owning definition and the
requested name; its message enumerates all known variant names, the variant
at index 0 annotated (default) and each later variant with a truthy
deprecated flag annotated (deprecated) — a deprecated variant at index 0
keeps only the (default) annotation. -/
theorem get_variant_not_found_spec (d : PluginDefinition) (n : String)
    (habsent : ∀ u ∈ d.variants, u.name ≠ some n) :
    d.get_variant n = .error (.variantNotFound d n) ∧
    variantNotFoundMessage d n =
      pyCapitalize d.type.descriptor ++ " " ++ quoteChar ++ d.name ++
      quoteChar ++ " variant " ++ quoteChar ++ n ++ quoteChar ++
      " is not known to Meltano. " ++ "Variants: " ++
      String.intercalate ", " d.annotatedVariantNames ∧
    d.annotatedVariantNames.length = d.variants.length ∧
    (∀ i, (hi : i < d.variants.length) →
      (hi2 : i < d.annotatedVariantNames.length) →
      d.annotatedVariantNames[i] =
        (if i = 0 then variantDisplayName d.variants[i] ++ " (default)"
         else if optTruthy (d.variants[i]).deprecated then
           variantDisplayName d.variants[i] ++ " (deprecated)"
         else variantDisplayName d.variants[i])) := by
  refine ⟨?_, rfl, ?_, ?_⟩
  · have hfind : d.variants.find? (fun u => u.name = some n) = none :=
      List.find?_eq_none.mpr (fun u hu => by simp [habsent u hu])
    simp [PluginDefinition.get_variant, find_named, hfind]
  · simp [PluginDefinition.annotatedVariantNames]
  · intro i hi hi2
    simp [PluginDefinition.annotatedVariantNames, List.getElem_map,
      List.getElem_enum]

theorem get_variant_not_found_spec_witness :
    defAB.get_variant "missing" = .error (.variantNotFound defAB "missing") ∧
    defAB.annotatedVariantNames.length = defAB.variants.length := by
  have h := get_variant_not_found_spec defAB "missing" (by decide)
  exact ⟨h.1, h.2.2.1⟩

/-- C3 counterexample: in defAB the first variant a has a truthy deprecated
flag, yet the enumerated names annotate it only with (default): no
(deprecated) annotation appears for it, although the claim requires every
deprecated-flagged variant to carry one. -/
theorem get_variant_not_found_counterexample :
    defAB.variants.map (fun u => optTruthy u.deprecated) = [true, false] ∧
    defAB.annotatedVariantNames = ["a (default)", "b"] ∧
    (∀ s ∈ defAB.annotatedVariantNames,
      ("(deprecated)".data).isSuffixOf s.data = false) ∧
    variantNotFoundMessage defAB "missing" =
      "Extractor " ++ quoteChar ++ "tap-x" ++ quoteChar ++ " variant " ++
      quoteChar ++ "missing" ++ quoteChar ++
      " is not known to Meltano. Variants: a (default), b" :=
  ⟨by decide, by decide, by decide, by decide⟩

/-- Binding a default preserves the setting name. -/
theorem bindExtraSetting_name (defaults : List (String × Value))
    (s : SettingDefinition) : (bindExtraSetting defaults s).name = s.name := by
  unfold bindExtraSetting
  cases h : dictLookup defaults s.name with
  | none => rfl
  | some v => cases v <;> rfl

/-- C9: extra_settings starts from the merged extras with every key
prefixed by an underscore; every statically declared extra-setting
definition is included, in declaration order, bound to the prefixed default
value when a non-null one exists; settings synthesized for flattened
prefixed default keys matching no declared setting name are appended after
all declared settings. -/
theorem basePlugin_extra_settings_spec (pd : PluginDefinition) (v : Variant)
    (E : List SettingDefinition) :
    (BasePlugin.extra_settings ⟨pd, v⟩ E).take E.length =
      E.map (bindExtraSetting (BasePlugin.prefixedDefaults ⟨pd, v⟩)) ∧
    (BasePlugin.extra_settings ⟨pd, v⟩ E).drop E.length =
      SettingDefinition.from_missing
        (E.map (bindExtraSetting (BasePlugin.prefixedDefaults ⟨pd, v⟩)))
        (BasePlugin.prefixedDefaults ⟨pd, v⟩) ∧
    (∀ e ∈ E,
      (bindExtraSetting (BasePlugin.prefixedDefaults ⟨pd, v⟩) e).name = e.name) ∧
    (∀ e ∈ E, ∀ w,
      dictLookup (BasePlugin.prefixedDefaults ⟨pd, v⟩) e.name = some w →
      w ≠ .null →
      bindExtraSetting (BasePlugin.prefixedDefaults ⟨pd, v⟩) e =
        { e with value := some w }) ∧
    (∀ e ∈ E,
      dictLookup (BasePlugin.prefixedDefaults ⟨pd, v⟩) e.name = none →
      bindExtraSetting (BasePlugin.prefixedDefaults ⟨pd, v⟩) e = e) ∧
    (∀ s ∈ (BasePlugin.extra_settings ⟨pd, v⟩ E).drop E.length,
      s.isDefault = true ∧ s.custom = false ∧
      (∃ kv, kv ∈ flattenDict (BasePlugin.prefixedDefaults ⟨pd, v⟩) ∧
        s.name = kv.1 ∧ s.value = some kv.2) ∧
      (∀ e ∈ E, e.name ≠ s.name)) := by
  have hsplit : BasePlugin.extra_settings ⟨pd, v⟩ E =
      E.map (bindExtraSetting (BasePlugin.prefixedDefaults ⟨pd, v⟩)) ++
      SettingDefinition.from_missing
        (E.map (bindExtraSetting (BasePlugin.prefixedDefaults ⟨pd, v⟩)))
        (BasePlugin.prefixedDefaults ⟨pd, v⟩) := rfl
  have hlen : E.length =
      (E.map (bindExtraSetting (BasePlugin.prefixedDefaults ⟨pd, v⟩))).length :=
    (List.length_map _ _).symm
  refine ⟨?_, ?_, ?_, ?_, ?_, ?_⟩
  · rw [hsplit, hlen, List.take_left]
  · rw [hsplit, hlen, List.drop_left]
  · intro e _
    exact bindExtraSetting_name _ e
  · intro e _ w hw hnull
    unfold bindExtraSetting
    rw [hw]
    cases w with
    | null => exact absurd rfl hnull
    | str s => rfl
    | bool b => rfl
    | num n => rfl
    | list vs => rfl
    | obj kvs => rfl
  · intro e _ hw
    unfold bindExtraSetting
    rw [hw]
  · intro s hs
    rw [hsplit, hlen, List.drop_left] at hs
    unfold SettingDefinition.from_missing at hs
    obtain ⟨kv, hkv, rfl⟩ := List.mem_map.mp hs
    obtain ⟨hkvflat, hkvcond⟩ := List.mem_filter.mp hkv
    refine ⟨rfl, rfl, ⟨kv, hkvflat, rfl, rfl⟩, ?_⟩
    intro e he heq
    have hany := of_decide_eq_true hkvcond
    apply hany
    rw [List.any_eq_true]
    refine ⟨bindExtraSetting (BasePlugin.prefixedDefaults ⟨pd, v⟩) e,
      List.mem_map_of_mem _ he, ?_⟩
    simp [bindExtraSetting_name, heq]

/-- A definition with a plain extra and a nested-object extra. -/
def defC9 : PluginDefinition :=
  { type := .extractors, name := "tap-x", nameSpace := "tap_x",
    extras := [("known", Value.str "k"), ("foo", Value.obj [("bar", Value.num 1)])],
    variants := [] }

/-- A variant with no extras of its own. -/
def varC9 : Variant := { name := some "a" }

/-- A declared extra setting whose prefixed default exists. -/
def settingC9 : SettingDefinition := { name := "_known" }

theorem basePlugin_extra_settings_spec_witness :
    bindExtraSetting (BasePlugin.prefixedDefaults ⟨defC9, varC9⟩) settingC9 =
      { settingC9 with value := some (Value.str "k") } ∧
    (∀ e ∈ [settingC9], e.name ≠
      (⟨"_foo.bar", some (Value.num 1), false, true⟩ : SettingDefinition).name) := by
  have h := basePlugin_extra_settings_spec defC9 varC9 [settingC9]
  have hd : (BasePlugin.extra_settings ⟨defC9, varC9⟩ [settingC9]).drop
      ([settingC9] : List SettingDefinition).length =
      [(⟨"_foo.bar", some (Value.num 1), false, true⟩ : SettingDefinition)] := rfl
  refine ⟨h.2.2.2.1 settingC9 (by simp) (Value.str "k") rfl
    (fun hh => Value.noConfusion hh), ?_⟩
  intro e he
  exact (h.2.2.2.2.2 ⟨"_foo.bar", some (Value.num 1), false, true⟩
    (by rw [hd]; simp)).2.2.2 e he

/-! ## Serialization lookup lemmas for the round trip -/

/-- Round trip of one setting through serialize and parse. -/
theorem settingParse_settingToValue (s : SettingDefinition) :
    settingParse (settingToValue s) = s := by
  obtain ⟨nm, val, cu, de⟩ := s
  rcases val with _ | v <;> cases cu <;> cases de <;>
    simp [settingParse, settingToValue, dictLookup_cons, dictLookup_append,
      dictLookup_nil]

/-- Membership in an optPair fixes the key. -/
theorem mem_optPair (k : String) (v : Option Value) (kv : String × Value)
    (h : kv ∈ optPair k v) : kv.1 = k := by
  cases v with
  | none => simp [optPair] at h
  | some w =>
    simp only [optPair, List.mem_singleton] at h
    rw [h]

/-- Every key of the variant tail is a recognized variant field key when the
variant carries no extras. -/
theorem variantTailPairs_keys (v : Variant) (hvex : v.extras = [])
    (kv : String × Value) (h : kv ∈ variantTailPairs v) :
    kv.1 ∈ variantFieldKeys := by
  unfold variantTailPairs at h
  rw [hvex, List.append_nil] at h
  simp only [List.mem_append, List.mem_cons, List.mem_singleton] at h
  rcases h with (((((h | h) | h) | h) | h) | h) | rfl | rfl | rfl | h
  · rw [mem_optPair _ _ _ h]; simp [variantFieldKeys]
  · rw [mem_optPair _ _ _ h]; simp [variantFieldKeys]
  · rw [mem_optPair _ _ _ h]; simp [variantFieldKeys]
  · rw [mem_optPair _ _ _ h]; simp [variantFieldKeys]
  · rw [mem_optPair _ _ _ h]; simp [variantFieldKeys]
  · rw [mem_optPair _ _ _ h]; simp [variantFieldKeys]
  · simp [variantFieldKeys]
  · simp [variantFieldKeys]
  · simp [variantFieldKeys]
  · simp at h

/-- Renaming name to variant is the identity on pairs without a name key. -/
theorem map_rename_eq_self (l : List (String × Value))
    (h : ∀ kv ∈ l, kv.1 ≠ "name") :
    l.map (fun kv => (if kv.1 = "name" then "variant" else kv.1, kv.2)) = l := by
  induction l with
  | nil => rfl
  | cons kv rest ih =>
    simp only [List.mem_cons, forall_eq_or_imp] at h
    simp [h.1, ih h.2]

/-- Lookup distributes over append through Option.or. -/
theorem dictLookup_append_or (a b : List (String × Value)) (k : String) :
    dictLookup (a ++ b) k = (dictLookup a k).or (dictLookup b k) := by
  rw [dictLookup_append]
  cases dictLookup a k <;> simp

/-- Lookup of each presentation key in the presentation pairs. -/
theorem presentationPairs_lookup (d : PluginDefinition) :
    dictLookup (presentationPairs d) "hidden" = d.hidden ∧
    dictLookup (presentationPairs d) "label" = d.label ∧
    dictLookup (presentationPairs d) "logo_url" = d.logo_url ∧
    dictLookup (presentationPairs d) "description" = d.description := by
  unfold presentationPairs
  refine ⟨?_, ?_, ?_, ?_⟩ <;>
    simp [dictLookup_append_or, dictLookup_optPair_self, dictLookup_optPair_ne]

/-- Lookup of any other key in the presentation pairs misses. -/
theorem presentationPairs_lookup_other (d : PluginDefinition) (k : String)
    (h : ¬ k ∈ presentationKeys) :
    dictLookup (presentationPairs d) k = none := by
  simp only [presentationKeys, List.mem_cons, not_or] at h
  obtain ⟨h1, h2, h3, h4, -⟩ := h
  have e1 : dictLookup (optPair "hidden" d.hidden) k = none :=
    dictLookup_optPair_ne _ _ _ (fun hh => h1 hh.symm)
  have e2 : dictLookup (optPair "label" d.label) k = none :=
    dictLookup_optPair_ne _ _ _ (fun hh => h2 hh.symm)
  have e3 : dictLookup (optPair "logo_url" d.logo_url) k = none :=
    dictLookup_optPair_ne _ _ _ (fun hh => h3 hh.symm)
  have e4 : dictLookup (optPair "description" d.description) k = none :=
    dictLookup_optPair_ne _ _ _ (fun hh => h4 hh.symm)
  unfold presentationPairs
  simp [dictLookup_append_or, e1, e2, e3, e4]

/-- The keys with reserved meaning when re-parsing a serialized definition:
the explicit constructor parameters, the presentation keys and the Variant
field keywords. -/
def reservedKeys : List String :=
  ["name", "namespace", "variant", "variants"] ++ presentationKeys ++
    variantFieldKeys

/-- Every key of the presentation pairs is a presentation key. -/
theorem presentationPairs_keys (d : PluginDefinition) (kv : String × Value)
    (h : kv ∈ presentationPairs d) : kv.1 ∈ presentationKeys := by
  unfold presentationPairs at h
  simp only [List.mem_append] at h
  rcases h with (h | h) | h | h
  · rw [mem_optPair _ _ _ h]; simp [presentationKeys]
  · rw [mem_optPair _ _ _ h]; simp [presentationKeys]
  · rw [mem_optPair _ _ _ h]; simp [presentationKeys]
  · rw [mem_optPair _ _ _ h]; simp [presentationKeys]

/-- In a reserved-free mapping every reserved key misses. -/
theorem reservedFree_lookup (ex : List (String × Value))
    (hx : ∀ kv ∈ ex, reservedKeys.contains kv.1 = false)
    (k : String) (hk : k ∈ reservedKeys) : dictLookup ex k = none := by
  apply dictLookup_eq_none
  intro kv hkv heq
  have hc := hx kv hkv
  rw [heq] at hc
  simp at hc
  exact hc hk

/-- Lookup of each recognized field key in the variant tail of an
extras-free variant. -/
theorem variantTailPairs_lookup (v : Variant) (hvex : v.extras = []) :
    dictLookup (variantTailPairs v) "original" = v.original ∧
    dictLookup (variantTailPairs v) "deprecated" = v.deprecated ∧
    dictLookup (variantTailPairs v) "docs" = v.docs ∧
    dictLookup (variantTailPairs v) "repo" = v.repo ∧
    dictLookup (variantTailPairs v) "pip_url" = v.pip_url ∧
    dictLookup (variantTailPairs v) "executable" = v.executable ∧
    dictLookup (variantTailPairs v) "capabilities" =
      some (Value.list v.capabilities) ∧
    dictLookup (variantTailPairs v) "settings_group_validation" =
      some (Value.list v.settings_group_validation) ∧
    dictLookup (variantTailPairs v) "settings" =
      some (Value.list (v.settings.map settingToValue)) := by
  unfold variantTailPairs
  rw [hvex, List.append_nil]
  refine ⟨?_, ?_, ?_, ?_, ?_, ?_, ?_, ?_, ?_⟩ <;>
    simp [dictLookup_append_or, dictLookup_optPair_self, dictLookup_optPair_ne,
      dictLookup_cons, dictLookup_nil]

/-- Lookup of an unrecognized key in the variant tail of an extras-free
variant misses. -/
theorem variantTailPairs_lookup_other (v : Variant) (hvex : v.extras = [])
    (k : String) (h : ¬ k ∈ variantFieldKeys) :
    dictLookup (variantTailPairs v) k = none := by
  apply dictLookup_eq_none
  intro kv hkv heq
  exact h (heq ▸ variantTailPairs_keys v hvex kv hkv)

/-- A filter keyed on a blocklist keeps a list whose keys avoid it. -/
theorem filter_keeps_of_keys (l : List (String × Value)) (bad : List String)
    (h : ∀ kv ∈ l, ¬ kv.1 ∈ bad) :
    l.filter (fun kv => ¬ bad.contains kv.1) = l := by
  apply List.filter_eq_self.mpr
  intro kv hkv
  simpa using h kv hkv

/-- A filter keyed on a blocklist drops a list whose keys all sit in it. -/
theorem filter_drops_of_keys (l : List (String × Value)) (bad : List String)
    (h : ∀ kv ∈ l, kv.1 ∈ bad) :
    l.filter (fun kv => ¬ bad.contains kv.1) = [] := by
  apply List.filter_eq_nil_iff.mpr
  intro kv hkv
  simpa using h kv hkv

/-- Keys of a reserved-free mapping avoid any sublist of the reserved keys. -/
theorem reservedFree_not_mem (ex : List (String × Value))
    (hx : ∀ kv ∈ ex, reservedKeys.contains kv.1 = false)
    (bad : List String) (hsub : ∀ x ∈ bad, x ∈ reservedKeys) :
    ∀ kv ∈ ex, ¬ kv.1 ∈ bad := by
  intro kv hkv hmem
  have hc := hx kv hkv
  simp at hc
  exact hc (hsub _ hmem)

/-- Re-parsing the flat keyword mapping assembled by serializing a
single-variant, extras-free, reserved-free definition rebuilds exactly the
original definition. -/
theorem pluginDefOfFlat_inverse (d : PluginDefinition) (v : Variant)
    (hv : d.variants = [v]) (hvex : v.extras = [])
    (hx : ∀ kv ∈ d.extras, reservedKeys.contains kv.1 = false) :
    pluginDefOfFlat d.type d.name d.nameSpace v.name
      (presentationPairs d ++ d.extras ++ variantTailPairs v) = d := by
  obtain ⟨hto, hdo, hdoc, hrep, hpip, hexe, hcap, hsgv, hset⟩ :=
    variantTailPairs_lookup v hvex
  have base : ∀ (k : String), ¬ k ∈ presentationKeys → k ∈ reservedKeys →
      dictLookup (presentationPairs d ++ d.extras ++ variantTailPairs v) k =
        dictLookup (variantTailPairs v) k := by
    intro k h1 h2
    rw [dictLookup_append_or, dictLookup_append_or,
      presentationPairs_lookup_other d k h1,
      reservedFree_lookup d.extras hx k h2]
    simp
  have e1 := (base "original" (by decide) (by decide)).trans hto
  have e2 := (base "deprecated" (by decide) (by decide)).trans hdo
  have e3 := (base "docs" (by decide) (by decide)).trans hdoc
  have e4 := (base "repo" (by decide) (by decide)).trans hrep
  have e5 := (base "pip_url" (by decide) (by decide)).trans hpip
  have e6 := (base "executable" (by decide) (by decide)).trans hexe
  have e7 := (base "capabilities" (by decide) (by decide)).trans hcap
  have e8 := (base "settings_group_validation" (by decide) (by decide)).trans hsgv
  have e9 := (base "settings" (by decide) (by decide)).trans hset
  -- the variant keeps no extras: everything unrecognized is promoted
  have hkextras : (presentationPairs d ++ d.extras ++ variantTailPairs v).filter
      (fun kv => ¬ variantFieldKeys.contains kv.1) =
      presentationPairs d ++ d.extras := by
    rw [List.filter_append, List.filter_append,
      filter_keeps_of_keys _ _ (fun kv hkv => by
        have hm := presentationPairs_keys d kv hkv
        simp only [presentationKeys, List.mem_cons] at hm
        intro hmem
        rcases hm with h | h | h | h | h <;>
          first
            | (rw [h] at hmem; simp [variantFieldKeys] at hmem)
            | simp at h),
      filter_keeps_of_keys _ _ (reservedFree_not_mem d.extras hx _ (by decide)),
      filter_drops_of_keys _ _ (variantTailPairs_keys v hvex),
      List.append_nil]
  -- presentation pops out of the promoted extras
  have p1 : dictLookup (presentationPairs d ++ d.extras) "hidden" = d.hidden := by
    rw [dictLookup_append_or, (presentationPairs_lookup d).1,
      reservedFree_lookup d.extras hx "hidden" (by decide), Option.or_none]
  have p2 : dictLookup (presentationPairs d ++ d.extras) "label" = d.label := by
    rw [dictLookup_append_or, (presentationPairs_lookup d).2.1,
      reservedFree_lookup d.extras hx "label" (by decide), Option.or_none]
  have p3 : dictLookup (presentationPairs d ++ d.extras) "logo_url" =
      d.logo_url := by
    rw [dictLookup_append_or, (presentationPairs_lookup d).2.2.1,
      reservedFree_lookup d.extras hx "logo_url" (by decide), Option.or_none]
  have p4 : dictLookup (presentationPairs d ++ d.extras) "description" =
      d.description := by
    rw [dictLookup_append_or, (presentationPairs_lookup d).2.2.2,
      reservedFree_lookup d.extras hx "description" (by decide), Option.or_none]
  have hpextras : (presentationPairs d ++ d.extras).filter
      (fun kv => ¬ presentationKeys.contains kv.1) = d.extras := by
    rw [List.filter_append,
      filter_drops_of_keys _ _ (presentationPairs_keys d),
      filter_keeps_of_keys _ _ (reservedFree_not_mem d.extras hx _ (by decide)),
      List.nil_append]
  have hsettings : (v.settings.map settingToValue).map settingParse =
      v.settings := by
    simp only [List.map_map, Function.comp_def, settingParse_settingToValue,
      List.map_id']
  unfold pluginDefOfFlat mkVariant
  simp only [e1, e2, e3, e4, e5, e6, e7, e8, e9, hkextras, p1, p2, p3, p4,
    hpextras, hsettings]
  rcases v with ⟨vn, vo, vdep, vdocs, vrepo, vpipu, vexec, vcaps, vsgv, vsett, vext⟩
  rcases d with ⟨t, n, ns, hid, lab, lo, desc, ex, vars⟩
  subst hv
  subst hvex
  rfl

/-- C7 amended: serializing a definition with exactly one variant inlines
the variant fields in place of the variants field with the variant name
key renamed to variant; any other number of variants serializes as a
nested variants list; re-parsing the single-variant serialized form yields
a definition equal to the original provided the sole variant carries no
variant-level extras and the definition extras avoid the reserved keys —
otherwise the re-parse promotes variant-level extras to definition extras,
as the counterexample shows. -/
theorem pluginDef_iter_roundtrip (d : PluginDefinition) :
    (∀ v, d.variants = [v] →
      d.iterPairs = pluginDefBasePairs d ++
        (variantPairs v).map (fun kv =>
          (if kv.1 = "name" then "variant" else kv.1, kv.2))) ∧
    (d.variants.length ≠ 1 →
      d.iterPairs = pluginDefBasePairs d ++
        [("variants", Value.list (d.variants.map (fun u =>
          Value.obj (variantPairs u))))]) ∧
    (∀ v, d.variants = [v] → v.extras = [] →
      (∀ kv ∈ d.extras, reservedKeys.contains kv.1 = false) →
      PluginDefinition.parse d.type d.iterPairs = some d) := by
  have hinline : ∀ v, d.variants = [v] →
      d.iterPairs = pluginDefBasePairs d ++
        (variantPairs v).map (fun kv =>
          (if kv.1 = "name" then "variant" else kv.1, kv.2)) := by
    intro v hv
    unfold PluginDefinition.iterPairs
    rw [hv]
  refine ⟨hinline, ?_, ?_⟩
  · intro hne
    unfold PluginDefinition.iterPairs
    rcases hvar : d.variants with _ | ⟨v, tail2⟩
    · rfl
    · cases tail2 with
      | nil => exact absurd (by rw [hvar]; rfl) hne
      | cons w rest => rfl
  · intro v hv hvex hx
    have hmap : (variantPairs v).map (fun kv =>
        (if kv.1 = "name" then "variant" else kv.1, kv.2)) =
        (match v.name with
         | some s => [("variant", Value.str s)]
         | none => ([] : List (String × Value))) ++ variantTailPairs v := by
      unfold variantPairs
      rw [List.map_append]
      congr 1
      · cases v.name <;> simp
      · exact map_rename_eq_self _ (fun kv hkv => by
          have hm := variantTailPairs_keys v hvex kv hkv
          intro heq
          rw [heq] at hm
          simp [variantFieldKeys] at hm)
    have hiter : d.iterPairs =
        ("name", Value.str d.name) :: ("namespace", Value.str d.nameSpace) ::
        ((presentationPairs d ++ d.extras) ++
         ((match v.name with
           | some s => [("variant", Value.str s)]
           | none => ([] : List (String × Value))) ++ variantTailPairs v)) := by
      rw [hinline v hv, hmap]
      unfold pluginDefBasePairs
      simp only [List.cons_append]
    have hnp_variants : dictLookup (match v.name with
        | some s => [("variant", Value.str s)]
        | none => ([] : List (String × Value))) "variants" = none := by
      cases v.name <;> simp [dictLookup_cons, dictLookup_nil]
    have hnp_variant : dictLookup (match v.name with
        | some s => [("variant", Value.str s)]
        | none => ([] : List (String × Value))) "variant" =
        v.name.map Value.str := by
      cases v.name <;> simp [dictLookup_cons, dictLookup_nil]
    have hname : dictLookup d.iterPairs "name" = some (Value.str d.name) := by
      rw [hiter, dictLookup_cons]
      simp
    have hns : dictLookup d.iterPairs "namespace" =
        some (Value.str d.nameSpace) := by
      rw [hiter, dictLookup_cons, dictLookup_cons]
      simp
    have hvariants : dictLookup d.iterPairs "variants" = none := by
      rw [hiter]
      simp [dictLookup_cons, dictLookup_append_or,
        presentationPairs_lookup_other d "variants" (by decide),
        reservedFree_lookup d.extras hx "variants" (by decide),
        hnp_variants,
        variantTailPairs_lookup_other v hvex "variants" (by decide)]
    have hvariant : dictLookup d.iterPairs "variant" =
        v.name.map Value.str := by
      rw [hiter]
      simp [dictLookup_cons, dictLookup_append_or,
        presentationPairs_lookup_other d "variant" (by decide),
        reservedFree_lookup d.extras hx "variant" (by decide),
        hnp_variant,
        variantTailPairs_lookup_other v hvex "variant" (by decide)]
    have hpres_four : ∀ kv ∈ presentationPairs d,
        ¬ kv.1 ∈ (["name", "namespace", "variant", "variants"] : List String) := by
      intro kv hkv hmem
      have hm := presentationPairs_keys d kv hkv
      simp only [presentationKeys, List.mem_cons] at hm
      rcases hm with h | h | h | h | h <;>
        first
          | (rw [h] at hmem; simp at hmem)
          | simp at h
    have htail_four : ∀ kv ∈ variantTailPairs v,
        ¬ kv.1 ∈ (["name", "namespace", "variant", "variants"] : List String) := by
      intro kv hkv hmem
      have hm := variantTailPairs_keys v hvex kv hkv
      simp only [variantFieldKeys, List.mem_cons] at hm
      rcases hm with h | h | h | h | h | h | h | h | h | h <;>
        first
          | (rw [h] at hmem; simp at hmem)
          | simp at h
    have hnp_keys : ∀ kv ∈ (match v.name with
        | some s => [("variant", Value.str s)]
        | none => ([] : List (String × Value))),
        kv.1 ∈ (["name", "namespace", "variant", "variants"] : List String) := by
      intro kv hkv
      cases hn : v.name
      · rw [hn] at hkv
        simp at hkv
      · rw [hn] at hkv
        simp only [List.mem_singleton] at hkv
        rw [hkv]
        simp
    have hkwargs : d.iterPairs.filter (fun kv =>
        ¬ (["name", "namespace", "variant", "variants"] : List String).contains
          kv.1) =
        presentationPairs d ++ d.extras ++ variantTailPairs v := by
      rw [hiter]
      simp only [List.filter_cons, List.filter_append]
      rw [filter_keeps_of_keys _ _ hpres_four,
        filter_keeps_of_keys _ _ (reservedFree_not_mem d.extras hx _ (by decide)),
        filter_drops_of_keys _ _ hnp_keys,
        filter_keeps_of_keys _ _ htail_four]
      simp
    have hfin := pluginDefOfFlat_inverse d v hv hvex hx
    cases hn : v.name with
    | none =>
      rw [hn] at hvariant hfin
      simp only [Option.map_none'] at hvariant
      simp only [PluginDefinition.parse, hname, hns, hvariants, hvariant,
        hkwargs, hfin]
    | some s =>
      rw [hn] at hvariant hfin
      simp only [Option.map_some'] at hvariant
      simp only [PluginDefinition.parse, hname, hns, hvariants, hvariant,
        hkwargs, hfin]

/-- A flat-constructed single-variant definition used for the round trip. -/
def defRT : PluginDefinition :=
  pluginDefOfFlat .extractors "tap-x" "tap_x" (some "v1")
    [("pip_url", Value.str "x"), ("foo", Value.str "bar"),
     ("label", Value.str "L")]

/-- The sole variant of defRT. -/
def varRT : Variant := { name := some "v1", pip_url := some (Value.str "x") }

theorem pluginDef_iter_roundtrip_witness :
    PluginDefinition.parse defRT.type defRT.iterPairs = some defRT :=
  (pluginDef_iter_roundtrip defRT).2.2 varRT rfl rfl (by decide)

/-- A definition whose sole variant carries a variant-level extra. -/
def defVE : PluginDefinition :=
  pluginDefOfVariants .extractors "tap-x" "tap_x"
    [mkVariant (some "a") [("x", Value.num 1)]] []

/-- C7 counterexample: serializing defVE, whose sole variant keeps the
variant-level extra x, and re-parsing promotes x into the definition
extras and leaves the variant without it, so the round trip does not
return the original definition. -/
theorem pluginDef_iter_roundtrip_counterexample :
    (PluginDefinition.parse defVE.type defVE.iterPairs).map
      (fun dd => dd.extras.map Prod.fst) = some ["x"] ∧
    defVE.extras.map Prod.fst = [] ∧
    (defVE.variants.map (fun u => u.extras.map Prod.fst)) = [["x"]] ∧
    PluginDefinition.parse defVE.type defVE.iterPairs ≠ some defVE := by
  refine ⟨by decide, rfl, by decide, ?_⟩
  intro hEq
  have h2 := congrArg (Option.map (fun dd => dd.extras.map Prod.fst)) hEq
  have e1 : (PluginDefinition.parse defVE.type defVE.iterPairs).map
      (fun dd => dd.extras.map Prod.fst) = some ["x"] := by decide
  have e2 : (some defVE).map (fun dd => dd.extras.map Prod.fst) =
      some ([] : List String) := by decide
  rw [e1, e2] at h2
  exact absurd h2 (by decide)

theorem pluginType_from_cli_argument_spec_witness :
    PluginType.from_cli_argument "extractor" = some .extractors ∧
    PluginType.from_cli_argument "files" = some .files :=
  ⟨(pluginType_from_cli_argument_spec.1 .extractors).1,
   (pluginType_from_cli_argument_spec.1 .files).2⟩
